import Mathlib

/-!
Verification of the NER model-comparison core (`demo/model_comparison.py`):
the response parser `_extract_entities_from_response`, the comparator
`compare_entities`, the scorer `calculate_metrics`, and the dispatcher
`extract_entities_single` / `extract_entities_both`, shallowly embedded in
Lean 4.  Python floats are modelled by exact rationals; the claims checked
here only involve values on which float and rational arithmetic agree
(the spec itself states `f1` only up to rounding).
-/

namespace NerComparison

/-- JSON values as produced by Python's `json.loads`.  Integer literals are
`num`; a numeric literal with a fraction or exponent part keeps its raw text
in `flt` (its floating-point semantics play no role here).  Objects are
key/value lists in insertion order with distinct keys (maintained by the
parser below, mirroring Python `dict`). -/
inductive Json where
  | null
  | bool (b : Bool)
  | num (n : Int)
  | flt (raw : List Char)
  | str (s : String)
  | arr (xs : List Json)
  | obj (fields : List (String × Json))

/-- Fuel-bounded rendering of a Json value as Python `repr` would print it
(used only through `pyStr` for f-string interpolation of entity fields; the
single-quote/escape corner cases of Python `repr` for exotic strings are
approximated, they are never reached by the claims). -/
def pyReprF : Nat → Json → String
  | 0, _ => ""
  | _ + 1, .null => "None"
  | _ + 1, .bool true => "True"
  | _ + 1, .bool false => "False"
  | _ + 1, .num n => toString n
  | _ + 1, .flt raw => String.mk raw
  | _ + 1, .str s => "'" ++ s ++ "'"
  | f + 1, .arr xs => "[" ++ String.intercalate ", " (xs.map (pyReprF f)) ++ "]"
  | f + 1, .obj fs =>
      "\x7b" ++
        String.intercalate ", " (fs.map (fun kv => "'" ++ kv.1 ++ "': " ++ pyReprF f kv.2)) ++
      "\x7d"

/-- Nesting depth of a Json value, used as fuel bound for `pyReprF`. -/
def jsonDepth : Json → Nat
  | .null => 1
  | .bool _ => 1
  | .num _ => 1
  | .flt _ => 1
  | .str _ => 1
  | .arr xs => xs.attach.foldl (fun a x => max a (jsonDepth x.1)) 0 + 1
  | .obj fs => fs.attach.foldl (fun a kv => max a (jsonDepth kv.1.2)) 0 + 1
decreasing_by
· have h := List.sizeOf_lt_of_mem x.2
  have h3 : sizeOf (Json.arr xs) = 1 + sizeOf xs := Json.arr.sizeOf_spec xs
  omega
· have h := List.sizeOf_lt_of_mem kv.2
  have h2 : sizeOf kv.1.2 < sizeOf kv.1 := by
    obtain ⟨⟨a, b⟩, hm⟩ := kv
    simp
  have h3 : sizeOf (Json.obj fs) = 1 + sizeOf fs := Json.obj.sizeOf_spec fs
  omega

/-- Python `str()` / f-string interpolation of a value: a string interpolates
verbatim, every other value via its `repr`. -/
def pyStr (j : Json) : String :=
  match j with
  | .str s => s
  | j => pyReprF (jsonDepth j) j

/-- An entity record as handled by the comparator: a Python dict
(key/value list, distinct keys). -/
abbrev EntityDict := List (String × Json)

/-- Python `d.get(k, dflt)` on an entity dict. -/
def dictGetD (d : EntityDict) (k : String) (dflt : Json) : Json :=
  match d.find? (fun kv => kv.1 == k) with
  | some kv => kv.2
  | none => dflt

/-- `entity_key` from `compare_entities` / `calculate_metrics`:
the string `"{name}|{type}"` with missing fields read as `""`. -/
def entityKey (e : EntityDict) : String :=
  pyStr (dictGetD e "name" (.str "")) ++ "|" ++ pyStr (dictGetD e "type" (.str ""))

/-- The Python set comprehension over the keys of an entity list. -/
def keyset (l : List EntityDict) : Finset String :=
  (l.map entityKey).toFinset

/-- The dictionary returned by `compare_entities` (fixed key set, so a
structure). -/
structure CompareResult where
  base_total : Nat
  lora_total : Nat
  common : Nat
  base_only : Nat
  lora_only : Nat
  improvement : Int

/-- `compare_entities` (model_comparison.py lines 205-236). -/
def compare_entities (base_entities lora_entities : List EntityDict) : CompareResult :=
  let base_set := keyset base_entities
  let lora_set := keyset lora_entities
  ⟨base_entities.length, lora_entities.length,
   (base_set ∩ lora_set).card, (base_set \ lora_set).card, (lora_set \ base_set).card,
   (lora_entities.length : Int) - (base_entities.length : Int)⟩

/-- Python truthiness test `not ground_truth` on the optional list. -/
def pyFalsy : Option (List EntityDict) → Bool
  | none => true
  | some [] => true
  | some (_ :: _) => false

/-- `calculate_metrics` (model_comparison.py lines 238-276).  The result is
the returned Python dict as a key/value list in insertion order: three keys
on the early-return path, six otherwise.  Floats are modelled as exact
rationals. -/
def calculate_metrics (ground_truth : Option (List EntityDict))
    (predictions : List EntityDict) : List (String × ℚ) :=
  if pyFalsy ground_truth then
    [("precision", 0), ("recall", 0), ("f1", 0)]
  else
    let gt := ground_truth.getD []
    let gt_set := keyset gt
    let pred_set := keyset predictions
    let tp : ℚ := (gt_set ∩ pred_set).card
    let fp : ℚ := (pred_set \ gt_set).card
    let fn : ℚ := (gt_set \ pred_set).card
    let p : ℚ := if tp + fp > 0 then tp / (tp + fp) else 0
    let r : ℚ := if tp + fn > 0 then tp / (tp + fn) else 0
    let f1 : ℚ := if p + r > 0 then 2 * p * r / (p + r) else 0
    [("precision", p), ("recall", r), ("f1", f1),
     ("true_positives", tp), ("false_positives", fp), ("false_negatives", fn)]

/-- The metric dictionary as §4.3 of the spec words it, for the non-empty
ground-truth case: tp/fp/fn as key-set intersection/difference cardinalities,
precision/recall/f1 by the guarded division formulas. -/
def specScore (G P : List EntityDict) : List (String × ℚ) :=
  let tp : ℚ := ((keyset G) ∩ (keyset P)).card
  let fp : ℚ := ((keyset P) \ (keyset G)).card
  let fn : ℚ := ((keyset G) \ (keyset P)).card
  let p : ℚ := if tp + fp > 0 then tp / (tp + fp) else 0
  let r : ℚ := if tp + fn > 0 then tp / (tp + fn) else 0
  let f1 : ℚ := if p + r > 0 then 2 * p * r / (p + r) else 0
  [("precision", p), ("recall", r), ("f1", f1),
   ("true_positives", tp), ("false_positives", fp), ("false_negatives", fn)]

/-- The tank entity from the spec's concrete scoring scenario. -/
def tankEnt : EntityDict := [("name", Json.str "坦克"), ("type", Json.str "军事装备")]

/-- The missile entity from the spec's concrete scoring scenario. -/
def missileEnt : EntityDict := [("name", Json.str "导弹"), ("type", Json.str "军事装备")]

/-! Response parser (`_extract_entities_from_response`, lines 115-171). -/

/-- Whitespace as recognised by Python's `\s`, `str.strip` and `re` in the
ASCII range (the inputs in this development contain no exotic Unicode
whitespace, for which Python is more permissive). -/
def pyIsSpace (c : Char) : Bool :=
  c = ' ' || c = '\t' || c = '\n' || c = '\r' || c = '\x0b' || c = '\x0c'

/-- Whitespace accepted between JSON tokens (RFC 8259, as in Python `json`). -/
def jsonIsSpace (c : Char) : Bool :=
  c = ' ' || c = '\t' || c = '\n' || c = '\r'

/-- Helper for `findSub`: index of the first position of `hay` at which
`needle` starts, counting from `i`. -/
def findSubAux (needle : List Char) : List Char → Nat → Option Nat
  | [], i => if needle.isEmpty then some i else none
  | c :: cs, i =>
      if needle.isPrefixOf (c :: cs) then some i else findSubAux needle cs (i + 1)

/-- Python `hay.find(needle)`, with `none` for Python's `-1`. -/
def findSub (hay needle : List Char) : Option Nat :=
  findSubAux needle hay 0

/-- Python `needle in hay` substring test. -/
def hasSub (hay needle : List Char) : Bool :=
  (findSub hay needle).isSome

def thinkOpen : List Char := "<think>".data

def thinkClose : List Char := "</think>".data

/-- Lines 120-126: when a `<think>` marker is present, drop everything up to
and including the first `</think>` (whose length is 8); when the closing
marker is missing keep the full original text. -/
def cleanThink (s : List Char) : List Char :=
  if hasSub s thinkOpen then
    match findSub s thinkClose with
    | some i => s.drop (i + 8)
    | none => s
  else s

/-- Python `str.strip()`. -/
def pyStripL (l : List Char) : List Char :=
  ((l.dropWhile pyIsSpace).reverse.dropWhile pyIsSpace).reverse

/-- Python `str.split('\n')`. -/
def splitNl : List Char → List (List Char)
  | [] => [[]]
  | c :: cs =>
      if c = '\n' then [] :: splitNl cs
      else
        match splitNl cs with
        | [] => [[c]]
        | l :: ls => (c :: l) :: ls

/-- Consume one expected character. -/
def expectChar (c : Char) : List Char → Option (List Char)
  | d :: rest => if d = c then some rest else none
  | [] => none

/-- Consume an expected literal. -/
def expectLit (lit : List Char) (cs : List Char) : Option (List Char) :=
  if lit.isPrefixOf cs then some (cs.drop lit.length) else none

/-- One attempted match of the regex
`\x7b\s*"entities"\s*:\s*\[([^\]]*)\]\s*\x7d` (line 130; `re.DOTALL` is
irrelevant as the pattern has no `.`) at the head of `cs`.  Every quantifier
in the pattern is followed by a character disjoint from its class, so the
regex is deterministic and this scanner is exactly Python `re` matching.
Returns the capture group and the text after the match. -/
def reMatchAt (cs : List Char) : Option (List Char × List Char) :=
  match expectChar '\x7b' cs with
  | none => none
  | some r1 =>
    match expectLit "\"entities\"".data (r1.dropWhile pyIsSpace) with
    | none => none
    | some r2 =>
      match expectChar ':' (r2.dropWhile pyIsSpace) with
      | none => none
      | some r3 =>
        match expectChar '[' (r3.dropWhile pyIsSpace) with
        | none => none
        | some r4 =>
          match expectChar ']' (r4.dropWhile (fun c => c ≠ ']')) with
          | none => none
          | some r5 =>
            match expectChar '\x7d' (r5.dropWhile pyIsSpace) with
            | none => none
            | some r6 => some (r4.takeWhile (fun c => c ≠ ']'), r6)

/-- Helper for `findAllBlocks`, fuelled by the input length (each step
consumes at least one character). -/
def findAllAux : Nat → List Char → List (List Char)
  | 0, _ => []
  | _ + 1, [] => []
  | fuel + 1, c :: cs =>
      match reMatchAt (c :: cs) with
      | some (cap, rest) => cap :: findAllAux fuel rest
      | none => findAllAux fuel cs

/-- `re.findall` of the entity-block pattern (line 131): left to right,
non-overlapping, resuming after the end of each match. -/
def findAllBlocks (cs : List Char) : List (List Char) :=
  findAllAux cs.length cs

/-! A JSON parser modelling Python `json.loads` (strict mode): value grammar
with objects, arrays, strings with escapes, numbers, literals and the
`NaN`/`Infinity` constants; raw control characters in strings rejected;
trailing garbage rejected. -/

/-- Value of a hex digit. -/
def hexVal (c : Char) : Option Nat :=
  if '0' ≤ c ∧ c ≤ '9' then some (c.toNat - 48)
  else if 'a' ≤ c ∧ c ≤ 'f' then some (c.toNat - 87)
  else if 'A' ≤ c ∧ c ≤ 'F' then some (c.toNat - 55)
  else none

/-- Escape table for JSON strings (without `\u`). -/
def unescape (c : Char) : Option Char :=
  if c = '"' then some '"'
  else if c = '\\' then some '\\'
  else if c = '/' then some '/'
  else if c = 'b' then some '\x08'
  else if c = 'f' then some '\x0c'
  else if c = 'n' then some '\n'
  else if c = 'r' then some '\r'
  else if c = 't' then some '\t'
  else none

/-- Scan a JSON string body after the opening quote; returns the decoded
characters and the text after the closing quote.  (`\uXXXX` escapes decoding
to lone surrogates, which Python accepts into its lax `str`, are mapped to
`'\x00'` by `Char.ofNat`; no claim depends on them.) -/
def scanJString : List Char → Option (List Char × List Char)
  | [] => none
  | c :: rest =>
      if c = '"' then some ([], rest)
      else if c = '\\' then
        match rest with
        | 'u' :: h1 :: h2 :: h3 :: h4 :: rest2 => do
            let n1 ← hexVal h1
            let n2 ← hexVal h2
            let n3 ← hexVal h3
            let n4 ← hexVal h4
            let (s, r) ← scanJString rest2
            pure (Char.ofNat (((n1 * 16 + n2) * 16 + n3) * 16 + n4) :: s, r)
        | e :: rest2 => do
            let c2 ← unescape e
            let (s, r) ← scanJString rest2
            pure (c2 :: s, r)
        | [] => none
      else if c.toNat < 0x20 then none
      else do
        let (s, r) ← scanJString rest
        pure (c :: s, r)

/-- Numeric value of a digit run. -/
def digitsToNat (ds : List Char) : Nat :=
  ds.foldl (fun a c => a * 10 + (c.toNat - 48)) 0

/-- Scan a JSON number at the head of `cs` (grammar
`-?(0|[1-9][0-9]*)(\.[0-9]+)?([eE][+-]?[0-9]+)?` as in Python `json`):
an integer literal becomes `num`, anything with a fraction or exponent part
keeps its raw text as `flt`. -/
def scanNumber (cs : List Char) : Option (Json × List Char) :=
  let (neg, cs1) := match cs with
    | '-' :: t => (true, t)
    | _ => (false, cs)
  match cs1.takeWhile Char.isDigit, cs1.dropWhile Char.isDigit with
  | [], _ => none
  | d :: ds, rest =>
      let (intPart, rest) :=
        if d = '0' then ([d], ds ++ rest) else (d :: ds, rest)
      let (fracPart, rest) :=
        match rest with
        | '.' :: t =>
            match t.takeWhile Char.isDigit, t.dropWhile Char.isDigit with
            | [], _ => (([] : List Char), '.' :: t)
            | f :: fs, r2 => ('.' :: f :: fs, r2)
        | _ => ([], rest)
      let (expPart, rest) :=
        match rest with
        | e :: t =>
            if e = 'e' ∨ e = 'E' then
              let (sgn, t2) := match t with
                | '+' :: u => (['+'], u)
                | '-' :: u => (['-'], u)
                | _ => (([] : List Char), t)
              match t2.takeWhile Char.isDigit, t2.dropWhile Char.isDigit with
              | [], _ => (([] : List Char), e :: t)
              | g :: gs, r2 => (e :: (sgn ++ g :: gs), r2)
            else ([], e :: t)
        | [] => ([], rest)
      if fracPart.isEmpty ∧ expPart.isEmpty then
        let n : Int := digitsToNat intPart
        some (.num (if neg then -n else n), rest)
      else
        some (.flt ((if neg then ['-'] else []) ++ intPart ++ fracPart ++ expPart), rest)

/-- Insertion into a Python dict built during object parsing: an existing
key is overwritten in place, a new key is appended. -/
def dictInsert (d : List (String × Json)) (k : String) (v : Json) : List (String × Json) :=
  if d.any (fun kv => kv.1 == k) then
    d.map (fun kv => if kv.1 == k then (k, v) else kv)
  else d ++ [(k, v)]

/-- Python `k in data` for a parsed dict. -/
def dictHas (d : List (String × Json)) (k : String) : Bool :=
  d.any (fun kv => kv.1 == k)

/-- Python `data[k]` for a parsed dict with `k` present (`null` otherwise;
the code only indexes after a membership test). -/
def dictGetJ (d : List (String × Json)) (k : String) : Json :=
  match d.find? (fun kv => kv.1 == k) with
  | some kv => kv.2
  | none => Json.null

mutual

/-- Parse one JSON value after optional leading whitespace, fuelled:
every recursive call decreases the fuel by one. -/
def parseValue : Nat → List Char → Option (Json × List Char)
  | 0, _ => none
  | fuel + 1, cs =>
      match cs.dropWhile jsonIsSpace with
      | [] => none
      | c :: rest =>
          if c = '"' then
            (scanJString rest).map (fun p => (Json.str (String.mk p.1), p.2))
          else if c = '\x7b' then
            match rest.dropWhile jsonIsSpace with
            | '\x7d' :: r2 => some (Json.obj [], r2)
            | _ => parseMembers fuel rest []
          else if c = '[' then
            match rest.dropWhile jsonIsSpace with
            | ']' :: r2 => some (Json.arr [], r2)
            | _ => parseElems fuel rest []
          else if c = 't' then
            (expectLit "rue".data rest).map (fun r => (Json.bool true, r))
          else if c = 'f' then
            (expectLit "alse".data rest).map (fun r => (Json.bool false, r))
          else if c = 'n' then
            (expectLit "ull".data rest).map (fun r => (Json.null, r))
          else if c = 'N' then
            (expectLit "aN".data rest).map (fun r => (Json.flt "NaN".data, r))
          else if c = 'I' then
            (expectLit "nfinity".data rest).map (fun r => (Json.flt "Infinity".data, r))
          else if c = '-' ∧ rest.headD ' ' = 'I' then
            (expectLit "Infinity".data rest).map (fun r => (Json.flt "-Infinity".data, r))
          else scanNumber (c :: rest)

/-- Parse the members of an object after its `\x7b` (at least one member;
the empty object is handled by `parseValue`). -/
def parseMembers : Nat → List Char → List (String × Json) → Option (Json × List Char)
  | 0, _, _ => none
  | fuel + 1, cs, acc =>
      match cs.dropWhile jsonIsSpace with
      | '"' :: r1 => do
          let (k, r2) ← scanJString r1
          let r3 ← expectChar ':' (r2.dropWhile jsonIsSpace)
          let (v, r4) ← parseValue fuel r3
          let acc2 := dictInsert acc (String.mk k) v
          match r4.dropWhile jsonIsSpace with
          | ',' :: r5 => parseMembers fuel r5 acc2
          | '\x7d' :: r5 => some (Json.obj acc2, r5)
          | _ => none
      | _ => none

/-- Parse the elements of an array after its `[` (at least one element;
the empty array is handled by `parseValue`). -/
def parseElems : Nat → List Char → List Json → Option (Json × List Char)
  | 0, _, _ => none
  | fuel + 1, cs, acc => do
      let (v, r1) ← parseValue fuel cs
      match r1.dropWhile jsonIsSpace with
      | ',' :: r2 => parseElems fuel r2 (acc ++ [v])
      | ']' :: r2 => some (Json.arr (acc ++ [v]), r2)
      | _ => none

end

/-- Python `json.loads`: one value, optionally surrounded by whitespace,
nothing after it.  The fuel `2·|input| + 2` is sufficient for every
successfully parsing document (each unit of nesting consumes at least one
character and at most two units of fuel); Python instead fails with a
`RecursionError` near nesting depth 1000, a difference visible on no input
of this development. -/
def jsonLoads (cs : List Char) : Option Json := do
  let (v, rest) ← parseValue (2 * cs.length + 2) cs
  if (rest.dropWhile jsonIsSpace).isEmpty then pure v else none

/-- The reconstruction `'\x7b"entities": [' + match + ']\x7d'` of line 137. -/
def mkJsonStr (m : List Char) : List Char :=
  "\x7b\"entities\": [".data ++ m ++ "]\x7d".data

/-- Lines 133-142: for every regex capture, parse the reconstructed
document and extend the accumulator with its `entities` list (skipping
captures that fail to parse; the membership and `isinstance` guards are kept
as written). -/
def entitiesFromMatches (caps : List (List Char)) : List Json :=
  caps.foldl (fun acc cap =>
    match jsonLoads (mkJsonStr cap) with
    | some (Json.obj fields) =>
        if dictHas fields "entities" then
          match dictGetJ fields "entities" with
          | Json.arr xs => acc ++ xs
          | _ => acc
        else acc
    | _ => acc) []

/-- Lines 145-155: scan the lines of the cleaned text; the first stripped
line that starts with `\x7b`, ends with `\x7d` and parses to a document with
an `entities` field short-circuits, returning that field's value verbatim. -/
def lineFallback : List (List Char) → Option Json
  | [] => none
  | l :: ls =>
      let t := pyStripL l
      match t with
      | [] => lineFallback ls
      | c :: _ =>
          if c = '\x7b' ∧ t.getLast? = some '\x7d' then
            match jsonLoads t with
            | some (Json.obj fields) =>
                if dictHas fields "entities" then some (dictGetJ fields "entities")
                else lineFallback ls
            | _ => lineFallback ls
          else lineFallback ls

/-- The key `f"{entity.get('name', '')}|{entity.get('type', '')}"` of the
deduplication loop; `none` models the `AttributeError` Python raises when
the accumulated element is not a dict. -/
def entityKeyJ : Json → Option String
  | Json.obj fields =>
      some (pyStr (dictGetD fields "name" (.str "")) ++ "|" ++
            pyStr (dictGetD fields "type" (.str "")))
  | _ => none

/-- Lines 157-166: keep the first occurrence of each distinct key, in order;
`none` models an `AttributeError` escaping the loop. -/
def dedupEntities : List Json → List String → Option (List Json)
  | [], _ => some []
  | e :: es, seen =>
      match entityKeyJ e with
      | none => none
      | some k =>
          if k ∈ seen then dedupEntities es seen
          else
            match dedupEntities es (k :: seen) with
            | none => none
            | some rest => some (e :: rest)

/-- The stages of `_extract_entities_from_response` that run on the
think-cleaned text: regex extraction, the line-oriented fallback (tried only
when the regex stage accumulated nothing; a fallback hit returns its value
without deduplication), then deduplication.  `Except.error acc` models an
exception escaping the `try` body with `entities = acc` accumulated. -/
def parseCleaned (clean : List Char) : Except (List Json) Json :=
  let entities := entitiesFromMatches (findAllBlocks clean)
  let fallbackHit := if entities.isEmpty then lineFallback (splitNl (pyStripL clean)) else none
  match fallbackHit with
  | some v => Except.ok v
  | none =>
      match dedupEntities entities [] with
      | some u => Except.ok (Json.arr u)
      | none => Except.error entities

/-- The `try` body of `_extract_entities_from_response`. -/
def extractBody (response : List Char) : Except (List Json) Json :=
  parseCleaned (cleanThink response)

/-- `_extract_entities_from_response` (lines 115-171): the `except
Exception: pass` wrapper falls through to `return entities`, so an escaping
exception returns the accumulated list undeduplicated. -/
def extractEntities (response : List Char) : Json :=
  match extractBody response with
  | Except.ok v => v
  | Except.error acc => Json.arr acc

/-! Dispatcher (`extract_entities_single` lines 56-113,
`extract_entities_both` lines 173-203).  The HTTP transport is abstracted by
an outcome: a successful call yields the response's message content, and any
`requests` exception — connection failure, timeout, `raise_for_status` on a
non-2xx reply, or a malformed response body — yields a failure message.
Elapsed wall-clock times are parameters (real time is outside the
embedding). -/

inductive HttpOutcome where
  | ok (responseText : String)
  | fail (message : String)

/-- The dictionary-like result record of a single inference call. -/
structure ModelResult where
  model_name : String
  entities : Json
  inference_time : ℚ
  success : Bool
  error_message : String
  raw_response : String

/-- `extract_entities_single`: on transport success, parse the content and
return a successful record; on any exception return a failed record with
empty entities and the exception text. -/
def extract_entities_single (_text : String) (model_name : String)
    (outcome : HttpOutcome) (elapsed : ℚ) : ModelResult :=
  match outcome with
  | .ok rt => ⟨model_name, extractEntities rt.data, elapsed, true, "", rt⟩
  | .fail m => ⟨model_name, Json.arr [], elapsed, false, m, ""⟩

/-- `extract_entities_both`: one call per endpoint (run concurrently in the
source; the pair is returned in fixed base-then-LoRA order either way). -/
def extract_entities_both (text : String) (baseOutcome loraOutcome : HttpOutcome)
    (tBase tLora : ℚ) : ModelResult × ModelResult :=
  (extract_entities_single text "qwen3-base" baseOutcome tBase,
   extract_entities_single text "qwen3-ner-zero3" loraOutcome tLora)

/-! Constructors for well-formed responses, used to state the parser claims
about clean single-block and two-block inputs.  An abstract entity is a
(name, type) pair of character lists; `renderEnt`/`renderInner`/`renderBlock`
produce the canonical JSON text `\x7b"entities": [\x7b"name": "...", "type":
"..."\x7d, ...]\x7d` for it. -/

/-- An abstract (name, type) entity. -/
abbrev Ent := List Char × List Char

/-- Characters allowed in a rendered name or type: printable, needing no
JSON string escaping, unable to close the regex capture (`]`) or to open a
reasoning tag (`<`). -/
def goodChar (c : Char) : Bool :=
  decide (0x20 ≤ c.toNat) && c != '"' && c != '\\' && c != ']' && c != '<'

/-- A well-formed rendered string. -/
def goodStr (s : List Char) : Prop := ∀ c ∈ s, goodChar c = true

/-- A well-formed entity. -/
def goodEnt (e : Ent) : Prop := goodStr e.1 ∧ goodStr e.2

instance (s : List Char) : Decidable (goodStr s) :=
  inferInstanceAs (Decidable (∀ c ∈ s, goodChar c = true))

instance (e : Ent) : Decidable (goodEnt e) :=
  inferInstanceAs (Decidable (goodStr e.1 ∧ goodStr e.2))

/-- The deduplication key of an abstract entity. -/
def entKeyStr (e : Ent) : String :=
  String.mk e.1 ++ "|" ++ String.mk e.2

/-- The Json object a well-formed rendered entity parses to. -/
def entObj (e : Ent) : Json :=
  Json.obj [("name", Json.str (String.mk e.1)), ("type", Json.str (String.mk e.2))]

/-- Rendered text of one entity. -/
def renderEnt (e : Ent) : List Char :=
  "\x7b\"name\": \"".data ++ e.1 ++ "\", \"type\": \"".data ++ e.2 ++ "\"\x7d".data

/-- Rendered text of an entity list (comma separated). -/
def renderInner : List Ent → List Char
  | [] => []
  | [e] => renderEnt e
  | e :: e2 :: es => renderEnt e ++ ',' :: renderInner (e2 :: es)

/-- A full rendered extraction block. -/
def renderBlock (es : List Ent) : List Char :=
  mkJsonStr (renderInner es)

/-- First-occurrence key deduplication as §4.1 step 5 of the spec words it,
on abstract entities. -/
def specDedup : List Ent → List String → List Ent
  | [], _ => []
  | e :: es, seen =>
      if entKeyStr e ∈ seen then specDedup es seen
      else e :: specDedup es (entKeyStr e :: seen)

/-- The tank entity as an abstract rendered entity. -/
def entTank : Ent := ("坦克".data, "军事装备".data)

/-- The missile entity as an abstract rendered entity. -/
def entMissile : Ent := ("导弹".data, "军事装备".data)

/-- C1: for every pair of entity lists, `compare_entities` satisfies the
disjoint-partition invariant: `common + base_only` is the number of distinct
keys of the first list and `common + lora_only` the number of distinct keys
of the second, the key of an entity being `"{name}|{type}"` with missing
fields read as the empty string. -/
theorem compare_partition (L1 L2 : List EntityDict) :
    (compare_entities L1 L2).common + (compare_entities L1 L2).base_only = (keyset L1).card ∧
    (compare_entities L1 L2).common + (compare_entities L1 L2).lora_only = (keyset L2).card := by
  constructor
  · exact Finset.card_inter_add_card_sdiff (keyset L1) (keyset L2)
  · show (keyset L1 ∩ keyset L2).card + (keyset L2 \ keyset L1).card = (keyset L2).card
    rw [Finset.inter_comm]
    exact Finset.card_inter_add_card_sdiff (keyset L2) (keyset L1)

/-- C2 counterexample: the claim that on absent ground truth all six metric
fields (including the true/false positive/negative counts) are present is
false: `calculate_metrics None []` returns only the three rate fields, and
the key `"true_positives"` is absent. -/
theorem score_counterexample :
    calculate_metrics none [] = [("precision", 0), ("recall", 0), ("f1", 0)] ∧
    "true_positives" ∉ (calculate_metrics none []).map Prod.fst := by
  exact ⟨rfl, by decide⟩

/-- C2 amended: for every predictions list, `calculate_metrics` with ground
truth `None` or `[]` returns the dictionary with exactly the three fields
precision, recall and f1, each zero (the tp/fp/fn fields are absent), with
no set computation over the predictions performed. -/
theorem score_no_ground_truth (gt : Option (List EntityDict)) (P : List EntityDict)
    (h : gt = none ∨ gt = some []) :
    calculate_metrics gt P = [("precision", 0), ("recall", 0), ("f1", 0)] := by
  rcases h with rfl | rfl <;> rfl

/-- Witness for C2: both the `None` and the `[]` case at a non-trivial
predictions list. -/
theorem score_no_ground_truth_witness :
    calculate_metrics none [tankEnt] = [("precision", 0), ("recall", 0), ("f1", 0)] ∧
    calculate_metrics (some []) [tankEnt] = [("precision", 0), ("recall", 0), ("f1", 0)] :=
  ⟨score_no_ground_truth none [tankEnt] (Or.inl rfl),
   score_no_ground_truth (some []) [tankEnt] (Or.inr rfl)⟩

/-- C3: for non-empty ground truth, `calculate_metrics` computes exactly the
spec's key-set formulas (`specScore`); identical duplicate-free non-empty
lists score precision = recall = f1 = 1; and the spec's concrete
tank/missile scenario gives tp=1, fp=1, fn=0, precision=1/2, recall=1,
f1=2/3. -/
theorem calculate_metrics_spec :
    (∀ G P : List EntityDict, G ≠ [] → calculate_metrics (some G) P = specScore G P) ∧
    (∀ G : List EntityDict, G ≠ [] → (G.map entityKey).Nodup →
      calculate_metrics (some G) G =
        [("precision", 1), ("recall", 1), ("f1", 1),
         ("true_positives", ((keyset G).card : ℚ)), ("false_positives", 0),
         ("false_negatives", 0)]) ∧
    calculate_metrics (some [tankEnt]) [tankEnt, missileEnt] =
      [("precision", 1/2), ("recall", 1), ("f1", 2/3),
       ("true_positives", 1), ("false_positives", 1), ("false_negatives", 0)] := by
  refine ⟨?_, ?_, ?_⟩
  · intro G P hG
    cases G with
    | nil => exact absurd rfl hG
    | cons e es => rfl
  · intro G hG _hnd
    obtain ⟨e, es, rfl⟩ := List.exists_cons_of_ne_nil hG
    have hmem : entityKey e ∈ keyset (e :: es) := by
      simp [keyset]
    have hpos : 0 < ((keyset (e :: es)).card : ℚ) := by
      exact_mod_cast Finset.card_pos.mpr ⟨entityKey e, hmem⟩
    show calculate_metrics (some (e :: es)) (e :: es) = _
    simp only [calculate_metrics, pyFalsy, Bool.false_eq_true, if_false, Option.getD_some,
      Finset.inter_self, Finset.sdiff_self, Finset.card_empty, Nat.cast_zero, add_zero]
    have hne : ((keyset (e :: es)).card : ℚ) ≠ 0 := ne_of_gt hpos
    rw [if_pos hpos, div_self hne]
    norm_num
  · have htp : (keyset [tankEnt] ∩ keyset [tankEnt, missileEnt]).card = 1 := by decide
    have hfp : (keyset [tankEnt, missileEnt] \ keyset [tankEnt]).card = 1 := by decide
    have hfn : (keyset [tankEnt] \ keyset [tankEnt, missileEnt]).card = 0 := by decide
    show calculate_metrics (some [tankEnt]) [tankEnt, missileEnt] = _
    simp only [calculate_metrics, pyFalsy, Bool.false_eq_true, if_false, Option.getD_some,
      htp, hfp, hfn]
    norm_num

/-- Witness for C3: the general formula applied at the concrete scenario
lists, and the identical-list clause applied at a concrete singleton. -/
theorem calculate_metrics_spec_witness :
    calculate_metrics (some [tankEnt]) [tankEnt, missileEnt] = specScore [tankEnt] [tankEnt, missileEnt] ∧
    calculate_metrics (some [tankEnt]) [tankEnt] =
      [("precision", 1), ("recall", 1), ("f1", 1),
       ("true_positives", ((keyset [tankEnt]).card : ℚ)), ("false_positives", 0),
       ("false_negatives", 0)] :=
  ⟨calculate_metrics_spec.1 [tankEnt] [tankEnt, missileEnt] (List.cons_ne_nil _ _),
   calculate_metrics_spec.2.1 [tankEnt] (List.cons_ne_nil _ _) (by decide)⟩

/-- C7: `compare_entities` computes `improvement` as the raw length
difference `len(L2) - len(L1)`, counting duplicate (name,type) entries; in
particular at a duplicated list the figure differs from the deduplicated
key-count difference. -/
theorem compare_improvement :
    (∀ L1 L2 : List EntityDict,
      (compare_entities L1 L2).improvement = (L2.length : Int) - (L1.length : Int)) ∧
    (compare_entities [] [tankEnt, tankEnt]).improvement = 2 ∧
    ((keyset [tankEnt, tankEnt]).card : Int) - ((keyset ([] : List EntityDict)).card : Int) = 1 := by
  exact ⟨fun L1 L2 => rfl, rfl, by decide⟩

/-- C4: parsing is total — for the sentinel non-JSON prose the parser
returns the empty sequence rather than an error, and whenever an exception
escapes the `try` body (`extractBody` errors), `_extract_entities_from_response`
returns exactly the partial list accumulated at that point. -/
theorem parse_never_raises :
    extractEntities "没有找到任何实体和关系".data = Json.arr [] ∧
    (∀ (s : List Char) (acc : List Json),
      extractBody s = Except.error acc → extractEntities s = Json.arr acc) := by
  refine ⟨rfl, ?_⟩
  intro s acc h
  unfold extractEntities
  rw [h]

/-- Witness for C4: on `'\x7b"entities": ["x"]\x7d'` the deduplication loop
raises (a `str` has no `.get`), and the parser returns the accumulated raw
list. -/
theorem parse_never_raises_witness :
    extractEntities "\x7b\"entities\": [\"x\"]\x7d".data = Json.arr [Json.str "x"] :=
  parse_never_raises.2 "\x7b\"entities\": [\"x\"]\x7d".data [Json.str "x"] rfl

/-- C9: with an opening `<think>` marker present, a missing closing marker
leaves the full original text to be parsed, while a closing marker at index
`i` discards everything up to and including it (8 characters); the parsing
stages always operate on the think-cleaned text. -/
theorem think_tag_handling (s : List Char) (h : hasSub s thinkOpen = true) :
    (hasSub s thinkClose = false → cleanThink s = s) ∧
    (∀ i, findSub s thinkClose = some i → cleanThink s = s.drop (i + 8)) ∧
    extractBody s = parseCleaned (cleanThink s) := by
  refine ⟨?_, ?_, rfl⟩
  · intro hc
    have hn : findSub s thinkClose = none := by
      rcases ho : findSub s thinkClose with _ | i
      · rfl
      · rw [hasSub, ho] at hc
        simp at hc
    simp [cleanThink, h, hn]
  · intro i hi
    simp [cleanThink, h, hi]

/-- Witness for C9: an unterminated reasoning block is kept whole; a
terminated one (closing marker at index 8) is cut after character 16. -/
theorem think_tag_handling_witness :
    cleanThink "<think>abc".data = "<think>abc".data ∧
    cleanThink "<think>x</think>rest".data = "<think>x</think>rest".data.drop (8 + 8) :=
  ⟨(think_tag_handling "<think>abc".data (by decide)).1 (by decide),
   (think_tag_handling "<think>x</think>rest".data (by decide)).2.1 8 (by decide)⟩

/-- C10: when the regex stage finds nothing and the line fallback fires, the
`entities` value is returned verbatim — with duplicate (name,type) keys kept
(no deduplication) in the first input, and as a bare string (not a sequence
of entity records) in the second. -/
theorem line_fallback_verbatim :
    extractEntities
        "\x7b\"entities\": [\x7b\"name\": \"a\", \"type\": \"t\"\x7d, \x7b\"name\": \"a\", \"type\": \"t\"\x7d, []]\x7d".data =
      Json.arr [Json.obj [("name", Json.str "a"), ("type", Json.str "t")],
                Json.obj [("name", Json.str "a"), ("type", Json.str "t")],
                Json.arr []] ∧
    extractEntities "\x7b\"entities\": \"x\"\x7d".data = Json.str "x" :=
  ⟨rfl, rfl⟩

/-- C8: a failed transport outcome makes the single-endpoint call return (not
raise) a record with `success = false`, empty entities and the failure text;
hence the dispatcher's pair keeps the successful endpoint's parsed result
next to the failed endpoint's record with a non-empty message. -/
theorem dispatcher_failure_isolated (text respA errB : String) (tA tB : ℚ)
    (h : errB ≠ "") :
    (∀ (t m : String) (e : ℚ),
      extract_entities_single t m (.fail errB) e = ⟨m, Json.arr [], e, false, errB, ""⟩) ∧
    (extract_entities_both text (.ok respA) (.fail errB) tA tB).1.success = true ∧
    (extract_entities_both text (.ok respA) (.fail errB) tA tB).1.entities =
      extractEntities respA.data ∧
    (extract_entities_both text (.ok respA) (.fail errB) tA tB).2.success = false ∧
    (extract_entities_both text (.ok respA) (.fail errB) tA tB).2.entities = Json.arr [] ∧
    (extract_entities_both text (.ok respA) (.fail errB) tA tB).2.error_message = errB ∧
    (extract_entities_both text (.ok respA) (.fail errB) tA tB).2.error_message ≠ "" :=
  ⟨fun _ _ _ => rfl, rfl, rfl, rfl, rfl, rfl, h⟩

/-- Witness for C8: endpoint B timing out yields a non-empty error message in
the returned pair. -/
theorem dispatcher_failure_isolated_witness :
    (extract_entities_both "兰州位于甘肃" (.ok "没有找到任何实体和关系") (.fail "timeout") 1 2).2.error_message ≠ "" :=
  (dispatcher_failure_isolated "兰州位于甘肃" "没有找到任何实体和关系" "timeout" 1 2 (by decide)).2.2.2.2.2.2

theorem takeWhile_all_append (p : Char → Bool) (xs ys : List Char)
    (h : ∀ c ∈ xs, p c = true) :
    (xs ++ ys).takeWhile p = xs ++ ys.takeWhile p := by
  induction xs with
  | nil => rfl
  | cons c cs ih =>
    have hc : p c = true := h c (by simp)
    simp [List.takeWhile_cons, hc, ih (fun d hd => h d (by simp [hd]))]

theorem dropWhile_all_append (p : Char → Bool) (xs ys : List Char)
    (h : ∀ c ∈ xs, p c = true) :
    (xs ++ ys).dropWhile p = ys.dropWhile p := by
  induction xs with
  | nil => rfl
  | cons c cs ih =>
    have hc : p c = true := h c (by simp)
    simp [List.dropWhile_cons, hc, ih (fun d hd => h d (by simp [hd]))]

theorem scanJString_good (s rest : List Char) (h : goodStr s) :
    scanJString (s ++ '"' :: rest) = some (s, rest) := by
  induction s with
  | nil =>
    rw [scanJString.eq_def]
    simp
  | cons c cs ih =>
    have hc := h c (List.mem_cons_self c cs)
    simp only [goodChar, Bool.and_eq_true, bne_iff_ne, ne_eq, decide_eq_true_eq] at hc
    obtain ⟨⟨⟨⟨hge, hq⟩, hbs⟩, _⟩, _⟩ := hc
    have hlt : ¬ c.toNat < 0x20 := by omega
    rw [List.cons_append, scanJString.eq_def]
    simp only [if_neg hq, if_neg hbs, if_neg hlt,
      ih (fun d hd => h d (by simp [hd]))]
    rfl

theorem parseValue_string (f : Nat) (s rest : List Char) (h : goodStr s) :
    parseValue (f + 1) ('"' :: (s ++ '"' :: rest)) = some (Json.str (String.mk s), rest) := by
  rw [parseValue.eq_def]
  simp [jsonIsSpace, scanJString_good s rest h]



theorem renderEnt_expand (e : Ent) (rest : List Char) :
    renderEnt e ++ rest =
      '\x7b' :: '"' :: (['n','a','m','e'] ++ '"' :: ':' :: ' ' :: '"' ::
        (e.1 ++ '"' :: ',' :: ' ' :: '"' :: (['t','y','p','e'] ++ '"' :: ':' :: ' ' :: '"' ::
          (e.2 ++ '"' :: '\x7d' :: rest)))) := by
  have d1 : ("\x7b\"name\": \"".data : List Char) =
      ['\x7b', '"', 'n', 'a', 'm', 'e', '"', ':', ' ', '"'] := rfl
  have d2 : ("\", \"type\": \"".data : List Char) =
      ['"', ',', ' ', '"', 't', 'y', 'p', 'e', '"', ':', ' ', '"'] := rfl
  have d3 : ("\"\x7d".data : List Char) = ['"', '\x7d'] := rfl
  simp [renderEnt, d1, d2, d3, List.append_assoc]

theorem scanJString_quote (cs : List Char) : scanJString ('"' :: cs) = some ([], cs) := by
  rw [scanJString.eq_def]
  simp

theorem scanJString_cons (c : Char) (cs : List Char) (hq : ¬ c = '"') (hbs : ¬ c = '\\')
    (hlt : ¬ c.toNat < 0x20) :
    scanJString (c :: cs) = (scanJString cs).bind (fun p => some (c :: p.1, p.2)) := by
  rw [scanJString.eq_def]
  simp only [if_neg hq, if_neg hbs, if_neg hlt]
  rfl

theorem parseValue_ent (f : Nat) (e : Ent) (rest : List Char) (h : goodEnt e) :
    parseValue (f + 4) (renderEnt e ++ rest) = some (entObj e, rest) := by
  obtain ⟨h1, h2⟩ := h
  have hs1 : ∀ r, scanJString (e.1 ++ '"' :: r) = some (e.1, r) :=
    fun r => scanJString_good e.1 r h1
  have hs2 : ∀ r, scanJString (e.2 ++ '"' :: r) = some (e.2, r) :=
    fun r => scanJString_good e.2 r h2
  rw [renderEnt_expand, parseValue.eq_def]
  simp [jsonIsSpace]
  rw [parseMembers.eq_def]
  simp [jsonIsSpace, scanJString_quote, scanJString_cons, hs1, hs2]
  simp [expectChar]
  rw [parseValue.eq_def]
  simp [jsonIsSpace, hs1]
  rw [parseMembers.eq_def]
  simp [jsonIsSpace, scanJString_quote, scanJString_cons, expectChar]
  rw [parseValue.eq_def]
  simp [jsonIsSpace, hs2, dictInsert, entObj]

theorem parseElems_render (es : List Ent) (f : Nat) (acc : List Json) (rest : List Char)
    (hne : es ≠ []) (h : ∀ e ∈ es, goodEnt e) :
    parseElems (2 * es.length + f + 4) (renderInner es ++ ']' :: rest) acc =
      some (Json.arr (acc ++ es.map entObj), rest) := by
  induction es generalizing f acc with
  | nil => exact absurd rfl hne
  | cons e es' ih =>
    cases es' with
    | nil =>
      have harith : 2 * ([e] : List Ent).length + f + 4 = (f + 1 + 4) + 1 := by
        simp only [List.length_cons, List.length_nil]
        omega
      rw [harith, parseElems.eq_def]
      simp only [renderInner]
      simp [parseValue_ent (f + 1) e (']' :: rest) (h e (by simp)), jsonIsSpace]
    | cons e2 es'' =>
      have harith : 2 * ((e :: e2 :: es'') : List Ent).length + f + 4 =
          (2 * (es''.length + 1) + (f + 1) + 4) + 1 := by
        simp only [List.length_cons]
        omega
      rw [harith, parseElems.eq_def]
      simp only [renderInner, List.cons_append, List.append_assoc]
      have hv := parseValue_ent (2 * (es''.length + 1) + (f + 1)) e
          (',' :: (renderInner (e2 :: es'') ++ ']' :: rest)) (h e (by simp))
      rw [hv]
      simp [jsonIsSpace]
      have hih := ih (f + 1) (acc ++ [entObj e]) (List.cons_ne_nil _ _)
          (fun d hd => h d (by simp [hd]))
      simp only [List.length_cons] at hih
      simp [hih]

theorem renderInner_cons_head (es : List Ent) (hne : es ≠ []) :
    ∃ t, renderInner es = '\x7b' :: t := by
  obtain ⟨e, es2, rfl⟩ := List.exists_cons_of_ne_nil hne
  cases es2 with
  | nil => exact ⟨_, rfl⟩
  | cons a b => exact ⟨_, rfl⟩

theorem parseValue_block_aux (inner t : List Char) (n f : Nat) (vs : List Json)
    (hht : inner = '\x7b' :: t)
    (hparse : parseElems (2 * n + f + 4) (inner ++ ']' :: '\x7d' :: []) [] =
      some (Json.arr vs, ['\x7d'])) :
    parseValue (2 * n + f + 7) (mkJsonStr inner) =
      some (Json.obj [("entities", Json.arr vs)], []) := by
  have expand : mkJsonStr inner =
      '\x7b' :: '"' :: 'e' :: 'n' :: 't' :: 'i' :: 't' :: 'i' :: 'e' :: 's' :: '"' :: ':' ::
        ' ' :: '[' :: (inner ++ ']' :: '\x7d' :: []) := rfl
  rw [expand]
  have harith : 2 * n + f + 7 = ((2 * n + f + 5) + 1) + 1 := by omega
  rw [harith, parseValue.eq_def]
  simp [jsonIsSpace]
  rw [parseMembers.eq_def]
  simp [jsonIsSpace, scanJString_quote, scanJString_cons, expectChar]
  have harith2 : 2 * n + f + 5 = (2 * n + f + 4) + 1 := by omega
  rw [harith2, parseValue.eq_def]
  simp only [jsonIsSpace, List.dropWhile_cons]
  rw [hht] at hparse ⊢
  simp only [List.cons_append] at hparse ⊢
  simp [hparse, dictInsert, jsonIsSpace]

theorem renderEnt_length (e : Ent) : (renderEnt e).length = e.1.length + e.2.length + 24 := by
  have l1 : ("\x7b\"name\": \"".data : List Char).length = 10 := rfl
  have l2 : ("\", \"type\": \"".data : List Char).length = 12 := rfl
  have l3 : ("\"\x7d".data : List Char).length = 2 := rfl
  simp [renderEnt, List.length_append, l1, l2, l3]
  omega

theorem renderInner_length_ge (es : List Ent) : es.length ≤ (renderInner es).length := by
  induction es with
  | nil => simp [renderInner]
  | cons e es2 ih =>
    cases es2 with
    | nil =>
      simp [renderInner, renderEnt_length]
    | cons a b =>
      simp only [renderInner, List.length_append, List.length_cons, renderEnt_length] at ih ⊢
      omega

theorem mkJsonStr_length (m : List Char) : (mkJsonStr m).length = m.length + 16 := by
  have l1 : ("\x7b\"entities\": [".data : List Char).length = 14 := rfl
  have l2 : ("]\x7d".data : List Char).length = 2 := rfl
  simp [mkJsonStr, List.length_append, l1, l2]

theorem jsonLoads_render (es : List Ent) (hne : es ≠ []) (h : ∀ e ∈ es, goodEnt e) :
    jsonLoads (mkJsonStr (renderInner es)) =
      some (Json.obj [("entities", Json.arr (es.map entObj))]) := by
  obtain ⟨t, ht⟩ := renderInner_cons_head es hne
  have hge : 2 * es.length + 7 ≤ 2 * (mkJsonStr (renderInner es)).length + 2 := by
    have h2 := renderInner_length_ge es
    rw [mkJsonStr_length]
    omega
  obtain ⟨f0, hf0⟩ : ∃ f0, 2 * (mkJsonStr (renderInner es)).length + 2 = 2 * es.length + f0 + 7 :=
    ⟨2 * (mkJsonStr (renderInner es)).length + 2 - (2 * es.length + 7), by omega⟩
  have hparse : parseElems (2 * es.length + f0 + 4) (renderInner es ++ ']' :: '\x7d' :: []) [] =
      some (Json.arr (es.map entObj), ['\x7d']) := by
    simpa using parseElems_render es f0 [] ['\x7d'] hne h
  have hblock := parseValue_block_aux (renderInner es) t es.length f0 (es.map entObj) ht hparse
  simp only [jsonLoads, hf0, hblock]
  rfl

theorem reMatchAt_nonbrace (c : Char) (cs : List Char) (h : ¬ c = '\x7b') :
    reMatchAt (c :: cs) = none := by
  rw [reMatchAt.eq_def]
  simp [expectChar, if_neg h]

theorem findAllAux_nil (f : Nat) : findAllAux f [] = [] := by
  cases f <;> rfl

theorem findAllAux_skip (p : List Char) (f : Nat) (cs : List Char)
    (h : ∀ c ∈ p, ¬ c = '\x7b') :
    findAllAux (p.length + f) (p ++ cs) = findAllAux f cs := by
  induction p with
  | nil => simp
  | cons c p2 ih =>
    have harith : (c :: p2).length + f = (p2.length + f) + 1 := by
      simp only [List.length_cons]
      omega
    rw [harith, List.cons_append, findAllAux.eq_def]
    simp [reMatchAt_nonbrace c _ (h c (by simp)), ih (fun d hd => h d (by simp [hd]))]

theorem findAllAux_nomatch (f : Nat) (s : List Char) (h : ∀ c ∈ s, ¬ c = '\x7b') :
    findAllAux f s = [] := by
  induction f generalizing s with
  | zero => rfl
  | succ f2 ih =>
    cases s with
    | nil => rfl
    | cons c s2 =>
      rw [findAllAux.eq_def]
      simp [reMatchAt_nonbrace c _ (h c (by simp)), ih s2 (fun d hd => h d (by simp [hd]))]

theorem findAllAux_match (f : Nat) (c : Char) (cs cap rest : List Char)
    (h : reMatchAt (c :: cs) = some (cap, rest)) :
    findAllAux (f + 1) (c :: cs) = cap :: findAllAux f rest := by
  rw [findAllAux.eq_def]
  simp [h]

theorem goodChar_spec (c : Char) (h : goodChar c = true) :
    ¬ c = ']' ∧ ¬ c = '<' := by
  simp only [goodChar, Bool.and_eq_true, bne_iff_ne, ne_eq, decide_eq_true_eq] at h
  exact ⟨h.1.2, h.2⟩

theorem renderEnt_chars (e : Ent) (h : goodEnt e) :
    ∀ c ∈ renderEnt e, ¬ c = ']' ∧ ¬ c = '<' := by
  obtain ⟨h1, h2⟩ := h
  intro c hc
  have d1 : ("\x7b\"name\": \"".data : List Char) =
      ['\x7b', '"', 'n', 'a', 'm', 'e', '"', ':', ' ', '"'] := rfl
  have d2 : ("\", \"type\": \"".data : List Char) =
      ['"', ',', ' ', '"', 't', 'y', 'p', 'e', '"', ':', ' ', '"'] := rfl
  have d3 : ("\"\x7d".data : List Char) = ['"', '\x7d'] := rfl
  by_cases m1 : c ∈ e.1
  · exact goodChar_spec c (h1 c m1)
  by_cases m2 : c ∈ e.2
  · exact goodChar_spec c (h2 c m2)
  have hlit : c ∈ (['\x7b', '"', 'n', 'a', 'm', 'e', '"', ':', ' ', '"'] ++
      ['"', ',', ' ', '"', 't', 'y', 'p', 'e', '"', ':', ' ', '"'] ++ ['"', '\x7d'] : List Char) := by
    simp only [renderEnt, d1, d2, d3, List.mem_append] at hc
    simp only [List.mem_append]
    tauto
  fin_cases hlit <;> exact ⟨by decide, by decide⟩

theorem renderInner_chars (es : List Ent) (h : ∀ e ∈ es, goodEnt e) :
    ∀ c ∈ renderInner es, ¬ c = ']' ∧ ¬ c = '<' := by
  induction es with
  | nil => simp [renderInner]
  | cons e es2 ih =>
    cases es2 with
    | nil =>
      simpa [renderInner] using renderEnt_chars e (h e (by simp))
    | cons a b =>
      intro c hc
      simp only [renderInner, List.mem_append, List.mem_cons] at hc
      rcases hc with hc | hc | hc
      · exact renderEnt_chars e (h e (by simp)) c hc
      · subst hc
        exact ⟨by decide, by decide⟩
      · exact ih (fun d hd => h d (by simp [hd])) c hc

theorem reMatchAt_render (es : List Ent) (rest : List Char) (h : ∀ e ∈ es, goodEnt e) :
    reMatchAt (renderBlock es ++ rest) = some (renderInner es, rest) := by
  have hinner := renderInner_chars es h
  have expand : renderBlock es ++ rest =
      '\x7b' :: '"' :: 'e' :: 'n' :: 't' :: 'i' :: 't' :: 'i' :: 'e' :: 's' :: '"' :: ':' ::
        ' ' :: '[' :: ((renderInner es ++ [']', '\x7d']) ++ rest) := rfl
  have assoc : ((renderInner es ++ [']', '\x7d']) : List Char) ++ rest =
      renderInner es ++ ']' :: '\x7d' :: rest := by simp
  have htw : (renderInner es ++ ']' :: '\x7d' :: rest).takeWhile (fun c => !decide (c = ']')) =
      renderInner es := by
    rw [takeWhile_all_append _ _ _ (fun c hc => by simp [(hinner c hc).1])]
    simp
  have hdw : (renderInner es ++ ']' :: '\x7d' :: rest).dropWhile (fun c => !decide (c = ']')) =
      ']' :: '\x7d' :: rest := by
    rw [dropWhile_all_append _ _ _ (fun c hc => by simp [(hinner c hc).1])]
    simp
  rw [expand, assoc, reMatchAt.eq_def]
  simp [expectChar, expectLit, pyIsSpace, htw, hdw, List.isPrefixOf]

theorem findSubAux_none (s : List Char) (i : Nat) (h : ∀ c ∈ s, ¬ c = '<') :
    findSubAux thinkOpen s i = none := by
  induction s generalizing i with
  | nil => rfl
  | cons c cs ih =>
    have hne : ¬ c = '<' := h c (by simp)
    have dt : thinkOpen = '<' :: 't' :: 'h' :: 'i' :: 'n' :: 'k' :: '>' :: [] := rfl
    have hp : thinkOpen.isPrefixOf (c :: cs) = false := by
      rw [dt]
      simp [List.isPrefixOf]
      intro hc
      exact absurd hc.symm hne
    simp [findSubAux, hp, ih (i + 1) (fun d hd => h d (by simp [hd]))]

theorem noThink (s : List Char) (h : ∀ c ∈ s, ¬ c = '<') : hasSub s thinkOpen = false := by
  simp [hasSub, findSub, findSubAux_none s 0 h]

theorem cleanThink_id (s : List Char) (h : ∀ c ∈ s, ¬ c = '<') : cleanThink s = s := by
  simp [cleanThink, noThink s h]

theorem renderBlock_no_lt (es : List Ent) (h : ∀ e ∈ es, goodEnt e) :
    ∀ c ∈ renderBlock es, ¬ c = '<' := by
  intro c hc
  have d1 : ("\x7b\"entities\": [".data : List Char) =
      ['\x7b', '"', 'e', 'n', 't', 'i', 't', 'i', 'e', 's', '"', ':', ' ', '['] := rfl
  have d2 : ("]\x7d".data : List Char) = [']', '\x7d'] := rfl
  by_cases m : c ∈ renderInner es
  · exact (renderInner_chars es h c m).2
  have hlit : c ∈ (['\x7b', '"', 'e', 'n', 't', 'i', 't', 'i', 'e', 's', '"', ':', ' ', '['] ++
      [']', '\x7d'] : List Char) := by
    simp only [renderBlock, mkJsonStr, d1, d2, List.mem_append] at hc
    simp only [List.mem_append]
    tauto
  fin_cases hlit <;> decide

theorem entitiesFromMatches_single (es : List Ent) (hne : es ≠ []) (h : ∀ e ∈ es, goodEnt e) :
    entitiesFromMatches [renderInner es] = es.map entObj := by
  simp [entitiesFromMatches, jsonLoads_render es hne h, dictHas, dictGetJ]

theorem entityKeyJ_entObj (e : Ent) : entityKeyJ (entObj e) = some (entKeyStr e) := rfl

theorem dedupEntities_spec (l : List Ent) (seen : List String) :
    dedupEntities (l.map entObj) seen = some ((specDedup l seen).map entObj) := by
  induction l generalizing seen with
  | nil => rfl
  | cons e l2 ih =>
    by_cases hm : entKeyStr e ∈ seen
    · simp [dedupEntities, specDedup, entityKeyJ_entObj, hm, ih]
    · simp [dedupEntities, specDedup, entityKeyJ_entObj, hm, ih]

theorem specDedup_of_nodup (l : List Ent) (seen : List String)
    (hnd : (l.map entKeyStr).Nodup) (hdisj : ∀ k ∈ seen, k ∉ l.map entKeyStr) :
    specDedup l seen = l := by
  induction l generalizing seen with
  | nil => rfl
  | cons e l2 ih =>
    have hm : entKeyStr e ∉ seen := fun hmem => hdisj _ hmem (by simp)
    simp only [List.map_cons, List.nodup_cons] at hnd
    obtain ⟨hhead, htail⟩ := hnd
    simp only [specDedup, if_neg hm, List.cons.injEq, true_and]
    apply ih (entKeyStr e :: seen) htail
    intro k hk
    rcases List.mem_cons.mp hk with rfl | hk2
    · exact hhead
    · intro hc
      exact hdisj k hk2 (by simp [hc])

/-- C5: a response consisting of exactly one valid rendered
`\x7b"entities": [...]\x7d` block — surrounded by prose free of `\x7b` and `<` —
whose list holds well-formed entity objects with pairwise-distinct
(name, type) keys, parses to exactly those entities in their original
order. -/
theorem parse_single_block (before after : List Char) (es : List Ent)
    (hb : ∀ c ∈ before, ¬ c = '\x7b' ∧ ¬ c = '<')
    (ha : ∀ c ∈ after, ¬ c = '\x7b' ∧ ¬ c = '<')
    (h : ∀ e ∈ es, goodEnt e)
    (hnd : (es.map entKeyStr).Nodup)
    (hne : es ≠ []) :
    extractEntities (before ++ renderBlock es ++ after) = Json.arr (es.map entObj) := by
  have hnolt : ∀ c ∈ before ++ renderBlock es ++ after, ¬ c = '<' := by
    intro c hc
    simp only [List.mem_append] at hc
    rcases hc with (hc | hc) | hc
    · exact (hb c hc).2
    · exact renderBlock_no_lt es h c hc
    · exact (ha c hc).2
  have hclean := cleanThink_id _ hnolt
  obtain ⟨bt, hbt⟩ : ∃ bt, renderBlock es = '\x7b' :: bt := ⟨_, rfl⟩
  have hfind : findAllBlocks (before ++ renderBlock es ++ after) = [renderInner es] := by
    have hassoc : before ++ renderBlock es ++ after = before ++ (renderBlock es ++ after) := by
      simp
    rw [findAllBlocks, hassoc]
    have hlen : (before ++ (renderBlock es ++ after)).length =
        before.length + (renderBlock es ++ after).length := by
      simp
    rw [hlen, findAllAux_skip before _ _ (fun c hc => (hb c hc).1)]
    have hlen2 : (renderBlock es ++ after).length = (bt.length + after.length) + 1 := by
      rw [hbt]
      simp only [List.cons_append, List.length_append, List.length_cons]
    have hm : reMatchAt (renderBlock es ++ after) = some (renderInner es, after) :=
      reMatchAt_render es after h
    rw [hbt, List.cons_append] at hm
    rw [hlen2, hbt, List.cons_append, findAllAux_match _ _ _ _ _ hm,
      findAllAux_nomatch _ after (fun c hc => (ha c hc).1)]
  have hents := entitiesFromMatches_single es hne h
  have hded : dedupEntities (es.map entObj) [] = some (es.map entObj) := by
    rw [dedupEntities_spec, specDedup_of_nodup es [] hnd (by simp)]
  obtain ⟨e0, es0, rfl⟩ := List.exists_cons_of_ne_nil hne
  simp only [List.append_assoc] at hclean hfind
  simp only [List.map_cons] at hded
  simp [extractEntities, extractBody, hclean, parseCleaned, hfind, hents, hded]

/-- C6: a response containing two parseable extraction blocks whose entity
lists overlap on some (name, type) key parses to each distinct key exactly
once — the first occurrence of each key, in first-seen order (`specDedup`
states §4.1 step 5 verbatim). -/
theorem parse_two_blocks (es1 es2 : List Ent)
    (h1 : ∀ e ∈ es1, goodEnt e) (h2 : ∀ e ∈ es2, goodEnt e)
    (hov : ∃ e1 ∈ es1, ∃ e2 ∈ es2, entKeyStr e1 = entKeyStr e2) :
    extractEntities (renderBlock es1 ++ '\n' :: renderBlock es2) =
      Json.arr ((specDedup (es1 ++ es2) []).map entObj) := by
  obtain ⟨w1, hw1, w2, hw2, hkeq⟩ := hov
  have hne1 : es1 ≠ [] := fun hc => by
    subst hc
    exact absurd hw1 (List.not_mem_nil w1)
  have hne2 : es2 ≠ [] := fun hc => by
    subst hc
    exact absurd hw2 (List.not_mem_nil w2)
  have hnolt : ∀ c ∈ renderBlock es1 ++ '\n' :: renderBlock es2, ¬ c = '<' := by
    intro c hc
    simp only [List.mem_append, List.mem_cons] at hc
    rcases hc with hc | hc | hc
    · exact renderBlock_no_lt es1 h1 c hc
    · subst hc
      decide
    · exact renderBlock_no_lt es2 h2 c hc
  have hclean := cleanThink_id _ hnolt
  obtain ⟨bt1, hbt1⟩ : ∃ bt, renderBlock es1 = '\x7b' :: bt := ⟨_, rfl⟩
  obtain ⟨bt2, hbt2⟩ : ∃ bt, renderBlock es2 = '\x7b' :: bt := ⟨_, rfl⟩
  have hfind : findAllBlocks (renderBlock es1 ++ '\n' :: renderBlock es2) =
      [renderInner es1, renderInner es2] := by
    have hm1 : reMatchAt (renderBlock es1 ++ '\n' :: renderBlock es2) =
        some (renderInner es1, '\n' :: renderBlock es2) :=
      reMatchAt_render es1 _ h1
    have hm2 : reMatchAt (renderBlock es2) = some (renderInner es2, []) := by
      have := reMatchAt_render es2 [] h2
      simpa using this
    have hlen : (renderBlock es1 ++ '\n' :: renderBlock es2).length =
        ((bt1.length + (bt2.length + 1)) + 1) + 1 := by
      rw [hbt1, hbt2]
      simp only [List.cons_append, List.length_append, List.length_cons]
      omega
    rw [findAllBlocks, hlen]
    rw [hbt1, List.cons_append] at hm1
    rw [hbt1, List.cons_append, findAllAux_match _ _ _ _ _ hm1]
    rw [findAllAux.eq_def]
    simp only [reMatchAt_nonbrace '\n' _ (by decide)]
    have hlen3 : bt1.length + (bt2.length + 1) = (bt1.length + bt2.length) + 1 := by omega
    rw [hbt2] at hm2
    rw [hlen3, hbt2, findAllAux_match _ _ _ _ _ hm2, findAllAux_nil]
  have hents : entitiesFromMatches [renderInner es1, renderInner es2] =
      es1.map entObj ++ es2.map entObj := by
    simp [entitiesFromMatches, jsonLoads_render es1 hne1 h1, jsonLoads_render es2 hne2 h2,
      dictHas, dictGetJ]
  have hded : dedupEntities (es1.map entObj ++ es2.map entObj) [] =
      some ((specDedup (es1 ++ es2) []).map entObj) := by
    rw [← List.map_append, dedupEntities_spec]
  obtain ⟨e0, es0, rfl⟩ := List.exists_cons_of_ne_nil hne1
  simp only [List.map_cons, List.cons_append] at hded
  simp [extractEntities, extractBody, hclean, parseCleaned, hfind, hents, hded]

/-- Witness for C5: a two-entity block surrounded by prose parses to exactly
those two entities in order. -/
theorem parse_single_block_witness :
    extractEntities ("output: ".data ++ renderBlock [entTank, entMissile] ++ " end".data) =
      Json.arr ([entTank, entMissile].map entObj) :=
  parse_single_block "output: ".data " end".data [entTank, entMissile]
    (by decide) (by decide) (by decide) (by decide) (by decide)

/-- Witness for C6: two blocks overlapping on the tank entity parse to the
first-seen deduplication of their concatenation. -/
theorem parse_two_blocks_witness :
    extractEntities (renderBlock [entTank] ++ '\n' :: renderBlock [entTank, entMissile]) =
      Json.arr ((specDedup ([entTank] ++ [entTank, entMissile]) []).map entObj) :=
  parse_two_blocks [entTank] [entTank, entMissile] (by decide) (by decide)
    ⟨entTank, by decide, entTank, by decide, rfl⟩

end NerComparison
